import Mathlib

/-!
Verification development for the Neuro PDF Comparator repository.

The definitions below are a shallow embedding of the comparison-and-
orchestration subsystem: the difflib-style line matcher used by
`src/processors/text_comparator.py`, the font / image comparators, the
similarity-score aggregator (`src/agent/comparison_engine.py`), the
learning module (`src/agent/learning_module.py`), the workflow
orchestrator (`src/agent/neuro_ai_mock.py`) and the per-file comparison
loop (`src/agent/neuro_agent.py`).

Python floats are modelled as rationals (ℚ); Python dicts keyed by
strings are modelled as association lists with first-match lookup and
replace-first update, which matches dict semantics when keys are unique
(as they are in every state reachable by the embedded operations).
-/

namespace PdfComp

/-- Association-list lookup, mirroring Python `dict[k]` / `dict.get(k)`:
the first binding for the key wins (bindings are kept unique by
`alistSet`, as Python dicts keep keys unique). -/
def alistGet {β : Type} (l : List (String × β)) (k : String) : Option β :=
  (l.find? (fun p => p.1 == k)).map Prod.snd

/-- Association-list update, mirroring Python `dict[k] = v`: replaces the
binding in place if the key exists, otherwise appends it (Python dicts
keep insertion order and update values in place). -/
def alistSet {β : Type} : List (String × β) → String → β → List (String × β)
  | [], k, v => [(k, v)]
  | (k', v') :: t, k, v =>
    if k' == k then (k, v) :: t else (k', v') :: alistSet t k v

theorem alistGet_alistSet_self {β : Type} (l : List (String × β)) (k : String) (v : β) :
    alistGet (alistSet l k v) k = some v := by
  induction l with
  | nil => simp [alistGet, alistSet]
  | cons p t ih =>
    cases p with
    | mk k' v' =>
      by_cases h : k' == k
      · have hstep : alistSet ((k', v') :: t) k v = (k, v) :: t := by
          simp [alistSet, h]
        rw [hstep]
        simp [alistGet]
      · have hstep : alistSet ((k', v') :: t) k v = (k', v') :: alistSet t k v := by
          simp [alistSet, h]
        rw [hstep]
        simp only [alistGet] at ih ⊢
        rw [List.find?_cons_of_neg _ (by simpa using h)]
        exact ih

theorem alistGet_alistSet_ne {β : Type} (l : List (String × β)) (k m : String) (v : β)
    (hne : m ≠ k) : alistGet (alistSet l k v) m = alistGet l m := by
  induction l with
  | nil =>
    simp [alistGet, alistSet, List.find?,
      show (k == m) = false by simpa using fun h => hne h.symm]
  | cons p t ih =>
    cases p with
    | mk k' v' =>
      by_cases h : k' == k
      · have hk : k' = k := by simpa using h
        subst hk
        have hstep : alistSet ((k', v') :: t) k' v = (k', v) :: t := by
          simp [alistSet]
        rw [hstep]
        have hfalse : (k' == m) = false := by simpa using fun h2 => hne h2.symm
        simp only [alistGet]
        rw [List.find?_cons_of_neg _ (by simp [hfalse]),
          List.find?_cons_of_neg _ (by simp [hfalse])]
      · have hstep : alistSet ((k', v') :: t) k v = (k', v') :: alistSet t k v := by
          simp [alistSet, h]
        rw [hstep]
        by_cases hm : k' == m
        · simp [alistGet, List.find?_cons_of_pos, hm]
        · simp only [alistGet] at ih ⊢
          rw [List.find?_cons_of_neg _ (by simpa using hm),
            List.find?_cons_of_neg _ (by simpa using hm)]
          exact ih

/-- `lastN n xs` is the Python slice `xs[-n:]`: the suffix holding the
`n` most recent elements (all of `xs` when it is shorter than `n`). -/
def lastN {α : Type} (n : Nat) (xs : List α) : List α :=
  xs.drop (xs.length - n)

theorem length_lastN {α : Type} (n : Nat) (xs : List α) :
    (lastN n xs).length = min n xs.length := by
  simp [lastN]; omega

theorem lastN_of_le {α : Type} {n : Nat} {xs : List α} (h : xs.length ≤ n) :
    lastN n xs = xs := by
  simp [lastN, Nat.sub_eq_zero_of_le h]

theorem lastN_append_singleton {α : Type} (n : Nat) (hn : 1 ≤ n) (xs : List α) (e : α) :
    lastN n (lastN n xs ++ [e]) = lastN n (xs ++ [e]) := by
  by_cases hx : xs.length ≤ n
  · rw [lastN_of_le hx]
  · push_neg at hx
    simp only [lastN, List.length_append, List.length_drop, List.length_singleton,
      List.drop_append_eq_append_drop, List.drop_drop, List.length_drop]
    congr 1
    · congr 1
      omega
    · have e2 : xs.length - (xs.length - n) + 1 - n - (xs.length - (xs.length - n)) = 0 := by
        omega
      have e3 : xs.length + 1 - n - xs.length = 0 := by omega
      rw [e2, e3]

/-- Insertion of a natural number into a sorted list (ascending), used to
model Python `sorted(...)` on page numbers. -/
def insertSortedNat (x : Nat) : List Nat → List Nat
  | [] => [x]
  | y :: ys => if x ≤ y then x :: y :: ys else y :: insertSortedNat x ys

/-- `sorted(list(...))` on naturals. -/
def sortNats (xs : List Nat) : List Nat := xs.foldr insertSortedNat []

theorem mem_insertSortedNat {x y : Nat} {ys : List Nat} :
    x ∈ insertSortedNat y ys ↔ x = y ∨ x ∈ ys := by
  induction ys with
  | nil => simp [insertSortedNat]
  | cons z zs ih =>
    by_cases h : y ≤ z
    · simp [insertSortedNat, h]
    · simp [insertSortedNat, h, ih]; tauto

theorem mem_sortNats {x : Nat} {xs : List Nat} : x ∈ sortNats xs ↔ x ∈ xs := by
  induction xs with
  | nil => simp [sortNats]
  | cons y ys ih =>
    simp only [sortNats, List.foldr] at *
    rw [mem_insertSortedNat, ih]
    simp

/-- Insertion sort on strings (ascending by `Ord String`), used to model
Python `sorted(...)` on the string sets appearing in pattern keys. -/
def insertSortedStr (x : String) : List String → List String
  | [] => [x]
  | y :: ys => if compare x y ≠ Ordering.gt then x :: y :: ys else y :: insertSortedStr x ys

/-- `sorted(...)` on strings. -/
def sortStrs (xs : List String) : List String := xs.foldr insertSortedStr []

end PdfComp

namespace SequenceMatcher

/-!
Embedding of `difflib.SequenceMatcher` (Python standard library) as used
by `TextComparator._compare_page_text` with `isjunk=None` on short line
lists (autojunk never triggers below 200 elements, which covers every
input the claims mention).  `find_longest_match` returns the longest
block `(i, j, k)` with `a[i:i+k] == b[j:j+k]`, ties broken by smallest
`i` then smallest `j` — difflib's documented "earliest longest" rule.
-/

variable {α : Type} [DecidableEq α]

/-- Length of the longest common prefix of two lists. -/
def commonPrefixLen : List α → List α → Nat
  | x :: xs, y :: ys => if x = y then commonPrefixLen xs ys + 1 else 0
  | _, _ => 0

theorem commonPrefixLen_le_left (xs ys : List α) :
    commonPrefixLen xs ys ≤ xs.length := by
  induction xs generalizing ys with
  | nil => cases ys <;> simp [commonPrefixLen]
  | cons x xs ih =>
    cases ys with
    | nil => simp [commonPrefixLen]
    | cons y ys =>
      by_cases h : x = y <;> simp [commonPrefixLen, h]
      exact ih ys

theorem commonPrefixLen_le_right (xs ys : List α) :
    commonPrefixLen xs ys ≤ ys.length := by
  induction xs generalizing ys with
  | nil => cases ys <;> simp [commonPrefixLen]
  | cons x xs ih =>
    cases ys with
    | nil => simp [commonPrefixLen]
    | cons y ys =>
      by_cases h : x = y <;> simp [commonPrefixLen, h]
      exact ih ys

theorem commonPrefixLen_self (xs : List α) : commonPrefixLen xs xs = xs.length := by
  induction xs with
  | nil => simp [commonPrefixLen]
  | cons x t ih => simp [commonPrefixLen, ih]

/-- All candidate blocks `(i, j, k)` where `k` is the common-prefix
length of `a` from `i` and `b` from `j`, scanned in difflib's order:
`i` ascending, then `j` ascending. -/
def matchCandidates (a b : List α) : List (Nat × Nat × Nat) :=
  (List.range (a.length + 1)).flatMap (fun i =>
    (List.range (b.length + 1)).map (fun j =>
      (i, j, commonPrefixLen (a.drop i) (b.drop j))))

/-- Keep the better of two blocks: a later block wins only when strictly
longer, so the scan order's first maximal block is retained. -/
def betterBlock (p q : Nat × Nat × Nat) : Nat × Nat × Nat :=
  if q.2.2 > p.2.2 then q else p

/-- `difflib.SequenceMatcher.find_longest_match` over whole lists (no
junk): the earliest longest matching block `(i, j, size)`. -/
def findLongestMatch (a b : List α) : Nat × Nat × Nat :=
  (matchCandidates a b).foldl betterBlock (0, 0, 0)

theorem foldl_betterBlock_mem (l : List (Nat × Nat × Nat)) (init : Nat × Nat × Nat) :
    l.foldl betterBlock init = init ∨ l.foldl betterBlock init ∈ l := by
  induction l generalizing init with
  | nil => simp
  | cons x t ih =>
    simp only [List.foldl_cons]
    rcases ih (betterBlock init x) with h | h
    · rw [h]
      by_cases hb : x.2.2 > init.2.2
      · right; simp [betterBlock, hb]
      · left; simp [betterBlock, hb]
    · right; exact List.mem_cons_of_mem _ h

theorem foldl_betterBlock_ge (l : List (Nat × Nat × Nat)) (init : Nat × Nat × Nat) :
    init.2.2 ≤ (l.foldl betterBlock init).2.2 := by
  induction l generalizing init with
  | nil => simp
  | cons x t ih =>
    simp only [List.foldl_cons]
    refine le_trans ?_ (ih (betterBlock init x))
    by_cases hb : x.2.2 > init.2.2 <;> simp [betterBlock, hb]
    omega

theorem mem_le_foldl_betterBlock {c : Nat × Nat × Nat} :
    ∀ (l : List (Nat × Nat × Nat)) (init : Nat × Nat × Nat), c ∈ l →
      c.2.2 ≤ (l.foldl betterBlock init).2.2 := by
  intro l
  induction l with
  | nil => intro init hc; cases hc
  | cons x t ih =>
    intro init hc
    simp only [List.foldl_cons]
    rcases List.mem_cons.mp hc with h | h
    · subst h
      refine le_trans ?_ (foldl_betterBlock_ge t (betterBlock init c))
      by_cases hb : c.2.2 > init.2.2 <;> simp [betterBlock, hb]
      omega
    · exact ih (betterBlock init x) h

theorem mem_matchCandidates {a b : List α} {c : Nat × Nat × Nat}
    (hc : c ∈ matchCandidates a b) :
    c.1 ≤ a.length ∧ c.2.1 ≤ b.length ∧
      c.2.2 = commonPrefixLen (a.drop c.1) (b.drop c.2.1) := by
  simp only [matchCandidates, List.mem_flatMap, List.mem_map, List.mem_range] at hc
  obtain ⟨i, hi, j, hj, rfl⟩ := hc
  exact ⟨by show i ≤ a.length; omega, by show j ≤ b.length; omega, rfl⟩

theorem mem_matchCandidates_size_le {a b : List α} {c : Nat × Nat × Nat}
    (hc : c ∈ matchCandidates a b) : c.1 + c.2.2 ≤ a.length ∧ c.2.1 + c.2.2 ≤ b.length := by
  obtain ⟨hi, hj, hk⟩ := mem_matchCandidates hc
  constructor
  · have := commonPrefixLen_le_left (a.drop c.1) (b.drop c.2.1)
    rw [← hk] at this
    simp only [List.length_drop] at this
    omega
  · have := commonPrefixLen_le_right (a.drop c.1) (b.drop c.2.1)
    rw [← hk] at this
    simp only [List.length_drop] at this
    omega

theorem self_mem_matchCandidates (a : List α) :
    ((0 : Nat), (0 : Nat), a.length) ∈ matchCandidates a a := by
  simp only [matchCandidates, List.mem_flatMap, List.mem_map, List.mem_range]
  exact ⟨0, by omega, 0, by omega, by simp [commonPrefixLen_self]⟩

/-- On identical inputs the earliest longest match is the whole list. -/
theorem findLongestMatch_self (a : List α) :
    findLongestMatch a a = (0, 0, a.length) := by
  have hge : a.length ≤ ((matchCandidates a a).foldl betterBlock (0, 0, 0)).2.2 :=
    mem_le_foldl_betterBlock (matchCandidates a a) (0, 0, 0) (self_mem_matchCandidates a)
  rw [findLongestMatch]
  rcases foldl_betterBlock_mem (matchCandidates a a) (0, 0, 0) with h | h
  · -- the fold never improved on the initial block, so the best size is 0
    rw [h] at hge ⊢
    have h0 : a.length = 0 := by
      have : a.length ≤ 0 := hge
      omega
    rw [h0]
  · -- the result is a candidate of maximal size a.length, forcing i = j = 0
    obtain ⟨hik, hjk⟩ := mem_matchCandidates_size_le h
    rcases hrr : (matchCandidates a a).foldl betterBlock (0, 0, 0) with ⟨x, y, z⟩
    rw [hrr] at hge hik hjk
    dsimp only at hge hik hjk
    have hx : x = 0 := by omega
    have hy : y = 0 := by omega
    have hz : z = a.length := by omega
    rw [hx, hy, hz]

/-- The recursive block collection of `SequenceMatcher.get_matching_blocks`
(divide and conquer around the longest match), with `oi`/`oj` tracking
absolute offsets.  The fuel argument only bounds the recursion depth; it
is always sufficient because each recursive region is strictly smaller
than `a.length + b.length`. -/
def rawBlocksF : Nat → List α → List α → Nat → Nat → List (Nat × Nat × Nat)
  | 0, _, _, _, _ => []
  | fuel + 1, a, b, oi, oj =>
    let m := findLongestMatch a b
    if 0 < m.2.2 then
      rawBlocksF fuel (a.take m.1) (b.take m.2.1) oi oj
        ++ (oi + m.1, oj + m.2.1, m.2.2)
        :: rawBlocksF fuel (a.drop (m.1 + m.2.2)) (b.drop (m.2.1 + m.2.2))
             (oi + m.1 + m.2.2) (oj + m.2.1 + m.2.2)
    else []

/-- Matching blocks of two lists (without the terminal sentinel). -/
def rawBlocks (a b : List α) : List (Nat × Nat × Nat) :=
  rawBlocksF (a.length + b.length + 1) a b 0 0

theorem findLongestMatch_nil_nil : findLongestMatch ([] : List α) [] = (0, 0, 0) := by
  have := findLongestMatch_self ([] : List α)
  simpa using this

theorem rawBlocksF_nil_nil (fuel oi oj : Nat) :
    rawBlocksF fuel ([] : List α) [] oi oj = [] := by
  cases fuel with
  | zero => rfl
  | succ n => simp [rawBlocksF, findLongestMatch_nil_nil]

/-- One unfolding of `rawBlocksF` at positive fuel. -/
theorem rawBlocksF_succ (fuel : Nat) (a b : List α) (oi oj : Nat) :
    rawBlocksF (fuel + 1) a b oi oj =
      if 0 < (findLongestMatch a b).2.2 then
        rawBlocksF fuel (a.take (findLongestMatch a b).1)
            (b.take (findLongestMatch a b).2.1) oi oj
          ++ (oi + (findLongestMatch a b).1, oj + (findLongestMatch a b).2.1,
                (findLongestMatch a b).2.2)
          :: rawBlocksF fuel
               (a.drop ((findLongestMatch a b).1 + (findLongestMatch a b).2.2))
               (b.drop ((findLongestMatch a b).2.1 + (findLongestMatch a b).2.2))
               (oi + (findLongestMatch a b).1 + (findLongestMatch a b).2.2)
               (oj + (findLongestMatch a b).2.1 + (findLongestMatch a b).2.2)
      else [] := rfl

/-- On identical inputs the matching blocks are the single whole-list
block (or nothing for empty input). -/
theorem rawBlocks_self (a : List α) :
    rawBlocks a a = if a.length = 0 then [] else [(0, 0, a.length)] := by
  cases a with
  | nil =>
    rw [rawBlocks, rawBlocksF_nil_nil]
    simp
  | cons x xs =>
    rw [rawBlocks, rawBlocksF_succ, findLongestMatch_self]
    dsimp only
    rw [if_pos (by simp)]
    rw [List.take_zero, rawBlocksF_nil_nil]
    simp only [Nat.zero_add]
    rw [List.drop_length, rawBlocksF_nil_nil]
    simp

end SequenceMatcher

namespace PdfComp

open SequenceMatcher

/-- difflib opcode tags. -/
inductive DiffTag
  | replace
  | delete
  | insert
  | equal
deriving DecidableEq

/-- One difflib opcode `(tag, i1, i2, j1, j2)`. -/
structure Opcode where
  tag : DiffTag
  i1 : Nat
  i2 : Nat
  j1 : Nat
  j2 : Nat
deriving DecidableEq

/-- `SequenceMatcher.get_opcodes`: walk the matching blocks (the sentinel
block `(len a, len b, 0)` is appended by the caller), emitting a
replace/delete/insert opcode for each gap and an equal opcode for each
nonempty block. -/
def opcodesFromBlocks : Nat → Nat → List (Nat × Nat × Nat) → List Opcode
  | _, _, [] => []
  | i, j, (ai, bj, size) :: rest =>
    (if i < ai ∧ j < bj then [⟨DiffTag.replace, i, ai, j, bj⟩]
     else if i < ai then [⟨DiffTag.delete, i, ai, j, bj⟩]
     else if j < bj then [⟨DiffTag.insert, i, ai, j, bj⟩]
     else [])
      ++ (if size ≠ 0 then [⟨DiffTag.equal, ai, ai + size, bj, bj + size⟩] else [])
      ++ opcodesFromBlocks (ai + size) (bj + size) rest

/-- `SequenceMatcher(None, a, b).get_opcodes()`. -/
def getOpcodes {α : Type} [DecidableEq α] (a b : List α) : List Opcode :=
  opcodesFromBlocks 0 0 (rawBlocks a b ++ [(a.length, b.length, 0)])

theorem getOpcodes_self {α : Type} [DecidableEq α] (a : List α) :
    getOpcodes a a =
      if a.length = 0 then []
      else [⟨DiffTag.equal, 0, a.length, 0, a.length⟩] := by
  rw [getOpcodes, rawBlocks_self]
  by_cases h : a.length = 0
  · simp [h, opcodesFromBlocks]
  · rw [if_neg h, if_neg h]
    simp [opcodesFromBlocks, h]

/-- Python `str.splitlines()` restricted to `\n` line endings (the only
ones the embedded texts use): split at each newline, and do not emit a
trailing empty line for a trailing newline. -/
def splitlinesAux : List Char → List Char → List String
  | [], acc => if acc.isEmpty then [] else [⟨acc.reverse⟩]
  | c :: cs, acc =>
    if c = '\n' then ⟨acc.reverse⟩ :: splitlinesAux cs []
    else splitlinesAux cs (c :: acc)

/-- `text.splitlines()`. -/
def splitlines (s : String) : List String := splitlinesAux s.data []

/-- The f-string of the `replace` branch of
`TextComparator._compare_page_text`. -/
def changedMsg (page_num i : Nat) (refLine newLine : String) : String :=
  "On page " ++ toString page_num ++ ", line " ++ toString (i + 1) ++
    ", the text was changed from \"" ++ refLine ++ "\" to \"" ++ newLine ++ "\"."

/-- The f-string of the `delete` branch. -/
def removedMsg (page_num i : Nat) (refLine : String) : String :=
  "On page " ++ toString page_num ++ ", line " ++ toString (i + 1) ++
    ", the text \"" ++ refLine ++ "\" was removed."

/-- The f-string of the `insert` branch. -/
def addedMsg (page_num j : Nat) (newLine : String) : String :=
  "On page " ++ toString page_num ++ ", line " ++ toString (j + 1) ++
    ", the text \"" ++ newLine ++ "\" was added."

/-- The per-opcode part of `TextComparator._compare_page_text`: `equal`
is skipped, a `replace` block reports only its first changed line pair
(the `i == i1 and j == j1` guard in the source), `delete`/`insert`
report every removed/added line.  Line lookups use a default of `""`
(the source indexes directly; opcode indices are always in range). -/
def opcodeRecords (page_num : Nat) (ref_lines new_lines : List String) :
    Opcode → List String
  | ⟨DiffTag.equal, _, _, _, _⟩ => []
  | ⟨DiffTag.replace, i1, i2, j1, j2⟩ =>
    (List.range' i1 (i2 - i1)).flatMap (fun i =>
      (List.range' j1 (j2 - j1)).flatMap (fun j =>
        if i = i1 ∧ j = j1 then
          [changedMsg page_num i (ref_lines.getD i "") (new_lines.getD j "")]
        else []))
  | ⟨DiffTag.delete, i1, i2, _, _⟩ =>
    (List.range' i1 (i2 - i1)).map (fun i =>
      removedMsg page_num i (ref_lines.getD i ""))
  | ⟨DiffTag.insert, _, _, j1, j2⟩ =>
    (List.range' j1 (j2 - j1)).map (fun j =>
      addedMsg page_num j (new_lines.getD j ""))

/-- `TextComparator._compare_page_text(ref_text, new_text, page_num)`. -/
def compare_page_text (ref_text new_text : String) (page_num : Nat) : List String :=
  (getOpcodes (splitlines ref_text) (splitlines new_text)).flatMap
    (opcodeRecords page_num (splitlines ref_text) (splitlines new_text))

/-- One entry of the `pages` list a parsed document carries:
`{'page_num': ..., 'text': ...}`. -/
structure PdfPage where
  page_num : Nat
  text : String
deriving DecidableEq

/-- The `{page['page_num']: page['text']}` dict comprehension of
`TextComparator.compare`: on duplicate page numbers the last entry wins,
as in Python. -/
def textMapGet (pages : List PdfPage) (n : Nat) : Option String :=
  (pages.reverse.find? (fun p => p.page_num == n)).map PdfPage.text

/-- The `text` block of a sensitivity profile
(`config/settings.py`, `SENSITIVITY_LEVELS[level]["text"]`). -/
structure TextConfig where
  strict : Bool
  ignore_whitespace : Bool
  ignore_case : Bool
  ignore_punctuation : Bool
deriving DecidableEq

/-- `TextComparator.compare(doc1_pages, doc2_pages, config)`: page-by-page
comparison keyed by page number; the config argument is accepted and
unused, exactly as in the source. -/
def TextComparator.compare (doc1_pages doc2_pages : List PdfPage)
    (_config : TextConfig) : List String :=
  let all_page_numbers :=
    sortNats ((doc1_pages.map PdfPage.page_num ++ doc2_pages.map PdfPage.page_num).dedup)
  all_page_numbers.flatMap (fun page_num =>
    match textMapGet doc1_pages page_num, textMapGet doc2_pages page_num with
    | none, _ => ["On page " ++ toString page_num ++ ", a new page was added."]
    | some _, none => ["On page " ++ toString page_num ++ ", a page was removed."]
    | some ref_text, some new_text => compare_page_text ref_text new_text page_num)

theorem compare_page_text_self (t : String) (p : Nat) :
    compare_page_text t t p = [] := by
  rw [compare_page_text, getOpcodes_self]
  by_cases h : (splitlines t).length = 0
  · simp [h]
  · simp [h, opcodeRecords]

theorem textMapGet_isSome {pages : List PdfPage} {n : Nat}
    (h : n ∈ pages.map PdfPage.page_num) : ∃ t, textMapGet pages n = some t := by
  obtain ⟨p, hp, hn⟩ := List.mem_map.mp h
  have hex : ∃ x ∈ pages.reverse, (fun q => q.page_num == n) x =
      true := ⟨p, List.mem_reverse.mpr hp, by simp [hn]⟩
  have hs := List.find?_isSome.mpr hex
  obtain ⟨q, hq⟩ := Option.isSome_iff_exists.mp hs
  exact ⟨q.text, by simp [textMapGet, hq]⟩

theorem flatMap_eq_nil_of_forall {α β : Type} {l : List α} {f : α → List β}
    (h : ∀ x ∈ l, f x = []) : l.flatMap f = [] := by
  induction l with
  | nil => rfl
  | cons x t ih =>
    rw [List.flatMap_cons, h x (List.mem_cons_self x t), List.nil_append]
    exact ih (fun y hy => h y (List.mem_cons_of_mem x hy))

theorem text_compare_self (pages : List PdfPage) (config : TextConfig) :
    TextComparator.compare pages pages config = [] := by
  rw [TextComparator.compare]
  apply flatMap_eq_nil_of_forall
  intro n hn
  have hmem : n ∈ pages.map PdfPage.page_num := by
    have h1 := mem_sortNats.mp hn
    have h2 := List.mem_dedup.mp h1
    rcases List.mem_append.mp h2 with h3 | h3 <;> exact h3
  obtain ⟨t, ht⟩ := textMapGet_isSome hmem
  rw [ht]
  exact compare_page_text_self t n

/-- Python `abs()` on rationals, written so that it evaluates by kernel
reduction (`|q|` via the lattice operations does not). -/
def ratAbs (q : ℚ) : ℚ := if q < 0 then -q else q

theorem ratAbs_eq_abs (q : ℚ) : ratAbs q = |q| := by
  by_cases h : q < 0
  · rw [ratAbs, if_pos h, abs_of_neg h]
  · rw [ratAbs, if_neg h, abs_of_nonneg (not_lt.mp h)]

/-- One font record of a parsed document: `name` and `size` are always
present (the parser emits them for every font); `family`, `style`,
`flags` and `color` are optional keys read with `.get`. -/
structure Font where
  name : String
  size : ℚ
  family : Option String := none
  style : Option String := none
  flags : Option Int := none
  color : Option String := none
deriving DecidableEq

/-- The `font` block of a sensitivity profile. -/
structure FontConfig where
  size_tolerance : ℚ
  style_check : Bool
  family_check : Bool
  color_check : Bool
deriving DecidableEq

/-- `SENSITIVITY_LEVELS["high"]["font"]` (weight_check is unused by the
comparators and omitted). -/
def highFontConfig : FontConfig := ⟨1/10, true, true, true⟩

/-- `SENSITIVITY_LEVELS["medium"]["font"]`. -/
def mediumFontConfig : FontConfig := ⟨1/2, true, true, false⟩

/-- `SENSITIVITY_LEVELS["low"]["font"]`. -/
def lowFontConfig : FontConfig := ⟨1, false, false, false⟩

/-- The `{f.get("name", ""): f for f in fonts}` dict comprehension: on
duplicate names the last font wins. -/
def fontGet (fonts : List Font) (n : String) : Option Font :=
  fonts.reverse.find? (fun f => f.name == n)

/-- Keys of the font dict in iteration order (first occurrence of each
name, as Python dicts keep first-insertion key order). -/
def fontKeys (fonts : List Font) : List String := (fonts.map Font.name).dedup

/-- `set(f.get("family", "") for f in fonts)`.  Python set iteration
order is unspecified; first-occurrence order is fixed here (no theorem
below depends on the order of family records). -/
def familySet (fonts : List Font) : List String :=
  (fonts.map (fun f => f.family.getD "")).dedup

/-- One record emitted by `ComparisonEngine.compare_fonts_detailed`; each
constructor carries the fields of the corresponding dict literal. -/
inductive FontDiff
  | added_family (family : String) (severity : String)
  | removed_family (family : String) (severity : String)
  | size (font_name : String) (reference_size new_size difference : ℚ) (severity : String)
  | style (font_name : String) (reference_style new_style : String) (severity : String)
  | color (font_name : String) (reference_color new_color : String) (severity : String)
deriving DecidableEq

/-- `ComparisonEngine.compare_fonts_detailed(fonts1, fonts2, config)`:
family records (gated by `family_check`), then size records (severity
`minor` up to an absolute delta of 1.0pt, `medium` beyond), then style
records (gated by `style_check`), then color records (gated by
`color_check`), in the source's append order. -/
def compare_fonts_detailed (fonts1 fonts2 : List Font) (config : FontConfig) :
    List FontDiff :=
  (if config.family_check then
    ((familySet fonts2).filter (fun fam => !((familySet fonts1).contains fam))).map
      (fun fam => FontDiff.added_family fam "medium")
    ++ ((familySet fonts1).filter (fun fam => !((familySet fonts2).contains fam))).map
      (fun fam => FontDiff.removed_family fam "medium")
  else [])
  ++ ((fontKeys fonts1).flatMap (fun n =>
    match fontGet fonts1 n, fontGet fonts2 n with
    | some f1, some f2 =>
      if ratAbs (f1.size - f2.size) > config.size_tolerance then
        [FontDiff.size n f1.size f2.size (ratAbs (f1.size - f2.size))
          (if ratAbs (f1.size - f2.size) ≤ 1 then "minor" else "medium")]
      else []
    | _, _ => []))
  ++ (if config.style_check then
    (fontKeys fonts1).flatMap (fun n =>
      match fontGet fonts1 n, fontGet fonts2 n with
      | some f1, some f2 =>
        if f1.style.getD "" ≠ f2.style.getD "" then
          [FontDiff.style n (f1.style.getD "") (f2.style.getD "") "medium"]
        else []
      | _, _ => [])
  else [])
  ++ (if config.color_check then
    (fontKeys fonts1).flatMap (fun n =>
      match fontGet fonts1 n, fontGet fonts2 n with
      | some f1, some f2 =>
        if f1.color.getD "" ≠ f2.color.getD "" then
          [FontDiff.color n (f1.color.getD "") (f2.color.getD "") "minor"]
        else []
      | _, _ => [])
  else [])

/-- One record emitted by `FontAnalyzer.compare`
(`src/processors/font_analyzer.py`). -/
inductive FontAnalyzerDiff
  | added (font_name : String) (severity : String)
  | removed (font_name : String) (severity : String)
  | size (font_name : String) (reference_size new_size : ℚ) (severity : String)
  | style (font_name : String) (reference_flags new_flags : Option Int) (severity : String)
  | color (font_name : String) (reference_color new_color : Option String) (severity : String)
deriving DecidableEq

/-- `FontAnalyzer.compare(fonts1, fonts2, config)`: one pass over the
union of font names (Python iterates an unordered set; first-occurrence
order is fixed here). -/
def FontAnalyzer.compare (fonts1 fonts2 : List Font) (config : FontConfig) :
    List FontAnalyzerDiff :=
  let names := ((fonts1.map Font.name) ++ (fonts2.map Font.name)).dedup
  names.flatMap (fun name =>
    match fontGet fonts1 name, fontGet fonts2 name with
    | none, _ => [FontAnalyzerDiff.added name "minor"]
    | some _, none => [FontAnalyzerDiff.removed name "minor"]
    | some f1, some f2 =>
      (if ratAbs (f1.size - f2.size) > config.size_tolerance then
        [FontAnalyzerDiff.size name f1.size f2.size "minor"] else [])
      ++ (if f1.flags ≠ f2.flags then
        [FontAnalyzerDiff.style name f1.flags f2.flags "minor"] else [])
      ++ (if f1.color ≠ f2.color then
        [FontAnalyzerDiff.color name f1.color f2.color "minor"] else []))

theorem fontGet_isSome {fonts : List Font} {n : String}
    (h : n ∈ fonts.map Font.name) : ∃ f, fontGet fonts n = some f := by
  obtain ⟨g, hg, hn⟩ := List.mem_map.mp h
  have hex : ∃ x ∈ fonts.reverse, (fun f => f.name == n) x = true :=
    ⟨g, List.mem_reverse.mpr hg, by simp [hn]⟩
  have hs := List.find?_isSome.mpr hex
  obtain ⟨f, hf⟩ := Option.isSome_iff_exists.mp hs
  exact ⟨f, hf⟩

theorem font_compare_self (fonts : List Font) (config : FontConfig)
    (htol : 0 ≤ config.size_tolerance) :
    FontAnalyzer.compare fonts fonts config = [] := by
  rw [FontAnalyzer.compare]
  apply flatMap_eq_nil_of_forall
  intro n hn
  have hmem : n ∈ fonts.map Font.name := by
    rcases List.mem_append.mp (List.mem_dedup.mp hn) with h | h <;> exact h
  obtain ⟨f, hf⟩ := fontGet_isSome hmem
  rw [hf]
  dsimp only
  have hz : ratAbs (f.size - f.size) = 0 := by
    rw [sub_self, ratAbs_eq_abs, abs_zero]
  rw [hz]
  have hlt : ¬ ((0 : ℚ) > config.size_tolerance) := by
    simpa using htol
  simp [hlt]

/-- One image entry of a parsed document: `{'data': <bytes>}`; the byte
payload is modelled as a list of naturals. -/
structure ImageEntry where
  data : List Nat
deriving DecidableEq

/-- One record emitted by `ImageComparator.compare`
(`src/processors/image_comparator.py`). -/
inductive ImageDiff
  | pair (index : Nat) (reference_hash new_hash : String) (identical : Bool)
      (reference_size new_size : Nat)
  | image_count_mismatch (reference_count new_count : Nat)
deriving DecidableEq

/-- The `for idx, (img1, img2) in enumerate(zip(images1, images2))` loop
of `ImageComparator.compare`; `hashFn` is the digest selected by the
profile's `hash_algorithm` (sha256 or md5). -/
def ImageComparator.comparePairs (hashFn : List Nat → String) :
    Nat → List ImageEntry → List ImageEntry → List ImageDiff
  | _, [], _ => []
  | _, _ :: _, [] => []
  | idx, i1 :: t1, i2 :: t2 =>
    (if hashFn i1.data = hashFn i2.data then []
     else [ImageDiff.pair idx (hashFn i1.data) (hashFn i2.data) false
        i1.data.length i2.data.length])
    ++ ImageComparator.comparePairs hashFn (idx + 1) t1 t2

/-- `ImageComparator.compare(images1, images2, config)`: per-index hash
records followed by a single count-mismatch record when the lists have
different lengths. -/
def ImageComparator.compare (hashFn : List Nat → String)
    (images1 images2 : List ImageEntry) : List ImageDiff :=
  ImageComparator.comparePairs hashFn 0 images1 images2
    ++ (if images1.length ≠ images2.length then
      [ImageDiff.image_count_mismatch images1.length images2.length] else [])

theorem ImageComparator.comparePairs_self (hashFn : List Nat → String)
    (idx : Nat) (images : List ImageEntry) :
    ImageComparator.comparePairs hashFn idx images images = [] := by
  induction images generalizing idx with
  | nil => rfl
  | cons x t ih => simp [ImageComparator.comparePairs, ih]

theorem image_compare_self (hashFn : List Nat → String)
    (images : List ImageEntry) :
    ImageComparator.compare hashFn images images = [] := by
  simp [ImageComparator.compare, ImageComparator.comparePairs_self]

/-- The category (`"type"` field) of a difference record; every record
built by the comparators carries one of these four. -/
inductive Category
  | text
  | image
  | font
  | layout
deriving DecidableEq

/-- The `weights` dict of `ComparisonEngine.calculate_similarity_score`
(the `.get(change_type, 1.0)` default is unreachable for the four-valued
category). -/
def categoryWeight : Category → ℚ
  | Category.text => 1
  | Category.image => 8/10
  | Category.font => 3/10
  | Category.layout => 5/10

/-- `ComparisonEngine.calculate_similarity_score(differences,
total_elements)`. -/
def calculate_similarity_score (differences : List Category)
    (total_elements : Nat) : ℚ :=
  if total_elements = 0 then 1
  else
    max 0 (min 1
      (1 - (differences.foldl (fun acc diff => acc + categoryWeight diff) 0)
        / (total_elements : ℚ)))

/-- One entry of the `differences` list inside the comparison data handed
to the learning module: `type`, `severity`, `operation` are read via
`.get(key, "unknown")` (each item is a dict; the `isinstance` guard of
the source always passes here). -/
structure LearnDiff where
  typ : Option String := none
  severity : Option String := none
  operation : Option String := none
deriving DecidableEq

/-- The comparison data passed to `LearningModule.update_patterns`: the
key extractor only reads the optional `differences` list. -/
structure ComparisonData where
  differences : Option (List LearnDiff) := none
deriving DecidableEq

/-- Python `'_'.join(parts)`. -/
def joinUnderscore : List String → String
  | [] => ""
  | [s] => s
  | s :: rest => s ++ "_" ++ joinUnderscore rest

/-- `LearningModule._extract_pattern_key(data)`
(`src/agent/learning_module.py`): the change types and severities of the
differences list, deduplicated and sorted, joined with underscores. -/
def extract_pattern_key (data : ComparisonData) : String :=
  let change_types : List String :=
    match data.differences with
    | none => []
    | some diffs => diffs.map (fun d => d.typ.getD "unknown")
  let severities : List String :=
    match data.differences with
    | none => []
    | some diffs => diffs.map (fun d => d.severity.getD "unknown")
  let change_type_str :=
    if change_types.isEmpty then "no_changes"
    else joinUnderscore (PdfComp.sortStrs change_types.dedup)
  let severity_str :=
    if severities.isEmpty then "no_severity"
    else joinUnderscore (PdfComp.sortStrs severities.dedup)
  change_type_str ++ "_" ++ severity_str

/-- `defaultdict(int)` increment: `self.frequent_changes[sig] += 1`. -/
def bumpCounter (counters : List (String × Nat)) (k : String) : List (String × Nat) :=
  match alistGet counters k with
  | none => alistSet counters k 1
  | some c => alistSet counters k (c + 1)

/-- `LearningModule._update_frequent_changes(comparison_data)`. -/
def update_frequent_changes (fc : List (String × Nat)) (data : ComparisonData) :
    List (String × Nat) :=
  match data.differences with
  | none => fc
  | some diffs =>
    diffs.foldl (fun acc d =>
      bumpCounter acc ((d.typ.getD "unknown") ++ "_" ++ (d.operation.getD "unknown"))) fc

/-- One element of a pattern's bounded `examples` list. -/
structure PatternExample where
  timestamp : ℚ
  data : ComparisonData
deriving DecidableEq

/-- The per-key record of `self.patterns`. -/
structure PatternData where
  count : Nat
  first_seen : ℚ
  last_seen : ℚ
  examples : List PatternExample
  metadata : ComparisonData
deriving DecidableEq

/-- One element of a statistics metric list:
`{'value': ..., 'timestamp': ...}`. -/
structure StatEntry where
  value : ℚ
  timestamp : ℚ
deriving DecidableEq

/-- The in-memory state of `LearningModule` (persistence hooks are
outside the model; `_save_data` only serializes this state). -/
structure LearningState where
  patterns : List (String × PatternData)
  statistics : List (String × List StatEntry)
  frequent_changes : List (String × Nat)
deriving DecidableEq

/-- A fresh `LearningModule` with no stored data. -/
def emptyLearningState : LearningState := ⟨[], [], []⟩

/-- `LearningModule.update_patterns(comparison_data)`; `now` stands for
`time.time()` (the source calls it several times inside one update; the
values within one call are identified, which is the only reading under
which `first_seen = last_seen` holds after the first recording). -/
def update_patterns (st : LearningState) (comparison_data : ComparisonData)
    (now : ℚ) : LearningState :=
  let pattern_key := extract_pattern_key comparison_data
  let patterns1 :=
    match alistGet st.patterns pattern_key with
    | none =>
      alistSet st.patterns pattern_key
        ⟨0, now, now, [], comparison_data⟩
    | some p =>
      alistSet st.patterns pattern_key
        { p with count := p.count + 1, last_seen := now }
  let patterns2 :=
    match alistGet patterns1 pattern_key with
    | none => patterns1
    | some p =>
      let examples := p.examples ++ [⟨now, comparison_data⟩]
      let examples := if examples.length > 10 then examples.drop 1 else examples
      alistSet patterns1 pattern_key { p with examples := examples }
  { st with
    patterns := patterns2,
    frequent_changes := update_frequent_changes st.frequent_changes comparison_data }

/-- `LearningModule.update_statistics(metric, value)`: append the entry
and keep only the last 1000. -/
def update_statistics (st : LearningState) (metric : String) (value now : ℚ) :
    LearningState :=
  let cur := (alistGet st.statistics metric).getD []
  let appended := cur ++ [⟨value, now⟩]
  let trimmed := if appended.length > 1000 then lastN 1000 appended else appended
  { st with statistics := alistSet st.statistics metric trimmed }

/-- `LearningModule.clear_old_data(days_to_keep)`: drop statistics
entries at or before the cutoff, drop emptied metrics, trim pattern
examples the same way, and drop a pattern iff it has no remaining
example and its `last_seen` is strictly before the cutoff. -/
def clear_old_data (st : LearningState) (now : ℚ) (days_to_keep : Nat) :
    LearningState :=
  let cutoff_time := now - (days_to_keep : ℚ) * 24 * 3600
  let statistics :=
    (st.statistics.map (fun p =>
      (p.1, p.2.filter (fun v => v.timestamp > cutoff_time)))).filter
      (fun p => !p.2.isEmpty)
  let patterns :=
    (st.patterns.map (fun p =>
      (p.1, { p.2 with
        examples := p.2.examples.filter (fun ex => ex.timestamp > cutoff_time) }))).filter
      (fun p => !(p.2.examples.isEmpty && decide (p.2.last_seen < cutoff_time)))
  { st with statistics := statistics, patterns := patterns }

/-- A workflow step (`WorkflowStep` dataclass of
`src/agent/neuro_ai_mock.py`): only the fields read by the execution
loop are modelled. -/
structure WorkflowStep where
  name : String
  task : String
  dependencies : List String
deriving DecidableEq

/-- `Workflow._check_dependencies(step, results)`: every declared
dependency name must already be a key of the completed-results dict. -/
def check_dependencies {α : Type} (step : WorkflowStep)
    (results : List (String × α)) : Bool :=
  step.dependencies.all (fun dep => (results.map Prod.fst).contains dep)

/-- The per-step context: `context.copy()` updated with every previous
step result (all step results are dicts), later results overwriting
earlier keys on collision. -/
def buildStepContext {α : Type} (context : List (String × α))
    (results : List (String × List (String × α))) : List (String × α) :=
  results.foldl
    (fun acc r => r.2.foldl (fun acc2 kv => alistSet acc2 kv.1 kv.2) acc) context

/-- `Workflow._topological_sort()`: the source returns `self.steps`
unchanged ("Simple implementation"). -/
def topological_sort (steps : List WorkflowStep) : List WorkflowStep := steps

/-- The step loop of `Workflow.execute`: `tasks` is the agent's task
registry (name to function); a task raising is an `Except.error`; the
missing-task `ValueError` of `Agent.execute_task` (message
`Task '<name>' not found` in the source) and the unmet-dependency
`ValueError` surface as errors that abort the loop. -/
def executeSteps {α : Type}
    (tasks : String → Option (List (String × α) → Except String (List (String × α))))
    (context : List (String × α)) :
    List WorkflowStep → List (String × List (String × α)) →
      Except String (List (String × List (String × α)))
  | [], results => Except.ok results
  | step :: rest, results =>
    if check_dependencies step results then
      match tasks step.task with
      | none => Except.error ("Task not found: " ++ step.task)
      | some f =>
        match f (buildStepContext context results) with
        | Except.ok step_result =>
          executeSteps tasks context rest (results ++ [(step.name, step_result)])
        | Except.error e => Except.error e
    else Except.error ("Dependencies not met for step: " ++ step.name)

/-- `Workflow.execute(context)`. -/
def Workflow.execute {α : Type}
    (tasks : String → Option (List (String × α) → Except String (List (String × α))))
    (context : List (String × α)) (steps : List WorkflowStep) :
    Except String (List (String × List (String × α))) :=
  executeSteps tasks context (topological_sort steps) []

theorem executeSteps_append {α : Type}
    (tasks : String → Option (List (String × α) → Except String (List (String × α))))
    (context : List (String × α)) (pre rest : List WorkflowStep)
    (acc : List (String × List (String × α))) :
    executeSteps tasks context (pre ++ rest) acc =
      match executeSteps tasks context pre acc with
      | Except.ok r => executeSteps tasks context rest r
      | Except.error e => Except.error e := by
  induction pre generalizing acc with
  | nil => simp [executeSteps]
  | cons step t ih =>
    simp only [List.cons_append, executeSteps]
    by_cases hdep : check_dependencies step acc
    · simp only [hdep, if_true]
      cases tasks step.task with
      | none => rfl
      | some f =>
        dsimp only
        cases f (buildStepContext context acc) with
        | ok step_result => exact ih (acc ++ [(step.name, step_result)])
        | error e => rfl
    · simp [hdep]

/-- A parsed document bundle handed to the comparison step:
`{"reference": ..., "new": ...}` or `{"error": ...}`. -/
structure DocContent where
  text : List PdfPage
  images : List ImageEntry
  fonts : List Font
deriving DecidableEq

/-- One value of the `parsed_content` dict. -/
inductive ParsedEntry
  | err (msg : String)
  | ok (reference new : DocContent)
deriving DecidableEq

/-- One value of the `all_differences` dict built by
`PDFComparisonNeuroAgent.compare_content`. -/
inductive FileResult
  | errorPayload (msg : String)
  | diffs (text images fonts : List String)
deriving DecidableEq

/-- `abs(len(a) - len(b))` on naturals. -/
def natDist (a b : Nat) : Nat := max a b - min a b

/-- The body of the `compare_content` loop for one file: an error entry
contributes exactly its error payload (`continue` afterwards); a
successful comparison contributes a diffs entry only when
`total_diffs > 0`. -/
def fileDifferences (filename : String) (content : ParsedEntry)
    (cfg : TextConfig) : List (String × FileResult) :=
  match content with
  | ParsedEntry.err msg => [(filename, FileResult.errorPayload msg)]
  | ParsedEntry.ok ref new =>
    let text_diff := TextComparator.compare ref.text new.text cfg
    let image_diff_count := natDist ref.images.length new.images.length
    let image_diff : List String :=
      if image_diff_count > 0 then
        [toString image_diff_count ++ " image(s) changed."] else []
    let font_diff_count := natDist ref.fonts.length new.fonts.length
    let font_diff : List String :=
      if font_diff_count > 0 then
        [toString font_diff_count ++ " font(s) changed."] else []
    if text_diff.length + image_diff.length + font_diff.length > 0 then
      [(filename, FileResult.diffs text_diff image_diff font_diff)]
    else []

/-- The `all_differences` dict of `compare_content`, in insertion
order. -/
def all_differences (parsed_content : List (String × ParsedEntry))
    (cfg : TextConfig) : List (String × FileResult) :=
  parsed_content.flatMap (fun p => fileDifferences p.1 p.2 cfg)

/-- The `change_summary` accumulator of `compare_content`. -/
structure ChangeSummary where
  total_files : Nat
  files_with_changes : Nat
  total_changes : Nat
deriving DecidableEq

/-- The `change_summary` computed by `compare_content`: error files are
skipped before `total_files` is incremented. -/
def change_summary (parsed_content : List (String × ParsedEntry))
    (cfg : TextConfig) : ChangeSummary :=
  parsed_content.foldl (fun s p =>
    match p.2 with
    | ParsedEntry.err _ => s
    | ParsedEntry.ok ref new =>
      let text_diff := TextComparator.compare ref.text new.text cfg
      let image_diff_count := natDist ref.images.length new.images.length
      let image_diff : List String :=
        if image_diff_count > 0 then
          [toString image_diff_count ++ " image(s) changed."] else []
      let font_diff_count := natDist ref.fonts.length new.fonts.length
      let font_diff : List String :=
        if font_diff_count > 0 then
          [toString font_diff_count ++ " font(s) changed."] else []
      let total_diffs := text_diff.length + image_diff.length + font_diff.length
      { total_files := s.total_files + 1,
        files_with_changes := s.files_with_changes + (if total_diffs > 0 then 1 else 0),
        total_changes := s.total_changes + (if total_diffs > 0 then total_diffs else 0) })
    ⟨0, 0, 0⟩

/-- `PDFComparisonNeuroAgent.compare_content(parsed_content,
sensitivity_config)`: the differences dict and the change summary. -/
def compare_content (parsed_content : List (String × ParsedEntry))
    (cfg : TextConfig) : List (String × FileResult) × ChangeSummary :=
  (all_differences parsed_content cfg, change_summary parsed_content cfg)

theorem foldl_add_weight (l : List Category) (init : ℚ) :
    l.foldl (fun acc diff => acc + categoryWeight diff) init
      = init + (l.map categoryWeight).sum := by
  induction l generalizing init with
  | nil => simp
  | cons x t ih => simp [ih]; ring

/-- C9: `calculate_similarity_score` with `total_elements = 0` returns
exactly 1 for every difference list (the zero guard fires before the
division). -/
theorem similarity_score_zero_total (differences : List Category) :
    calculate_similarity_score differences 0 = 1 := by
  simp [calculate_similarity_score]

/-- C6: for positive `total_elements` the similarity score is
`1 − Σ weight(category) / total_elements` clamped to [0, 1], with
weights text 1.0, image 0.8, font 0.3, layout 0.5. -/
theorem similarity_score_formula (differences : List Category)
    (total_elements : Nat) (h : 0 < total_elements) :
    calculate_similarity_score differences total_elements
        = max 0 (min 1
            (1 - (differences.map categoryWeight).sum / (total_elements : ℚ)))
      ∧ categoryWeight Category.text = 1
      ∧ categoryWeight Category.image = 8/10
      ∧ categoryWeight Category.font = 3/10
      ∧ categoryWeight Category.layout = 5/10 := by
  refine ⟨?_, rfl, rfl, rfl, rfl⟩
  rw [calculate_similarity_score, if_neg (by omega)]
  rw [foldl_add_weight]
  simp

/-- Witness for C6 at `total_elements = 2` with one text and one font
record: the score is `1 - (1 + 3/10)/2 = 7/20`. -/
theorem similarity_score_formula_witness :
    0 < 2 ∧
      (calculate_similarity_score [Category.text, Category.font] 2
        = max 0 (min 1
            (1 - (([Category.text, Category.font].map categoryWeight).sum / (2 : ℚ))))) :=
  ⟨by omega, (similarity_score_formula [Category.text, Category.font] 2 (by omega)).1⟩

/-- C7: a file whose parsed content carries an error payload contributes
exactly its error payload to the per-file comparison results — no
difference records — and every other file is compared exactly as it
would be without it. -/
theorem compare_content_error_isolated (xs ys : List (String × ParsedEntry))
    (f m : String) (cfg : TextConfig) :
    (compare_content (xs ++ (f, ParsedEntry.err m) :: ys) cfg).1
      = (compare_content xs cfg).1
        ++ (f, FileResult.errorPayload m) :: (compare_content ys cfg).1 := by
  simp [compare_content, all_differences, List.flatMap_append, fileDifferences]

/-- C4: comparing any document against an identical copy yields an empty
difference list from the text, font and image comparators, for every
profile with a nonnegative font size tolerance (all three presets
qualify) and every digest function. -/
theorem identical_documents_no_differences
    (pages : List PdfPage) (fonts : List Font) (images : List ImageEntry)
    (textCfg : TextConfig) (fontCfg : FontConfig) (hashFn : List Nat → String)
    (htol : 0 ≤ fontCfg.size_tolerance) :
    TextComparator.compare pages pages textCfg = []
      ∧ FontAnalyzer.compare fonts fonts fontCfg = []
      ∧ ImageComparator.compare hashFn images images = [] :=
  ⟨text_compare_self pages textCfg,
    font_compare_self fonts fontCfg htol,
    image_compare_self hashFn images⟩

/-- Witness for C4 at a concrete one-page, one-font, one-image document
under the medium preset. -/
theorem identical_documents_no_differences_witness :
    (0 : ℚ) ≤ mediumFontConfig.size_tolerance ∧
      (TextComparator.compare [⟨1, "hello"⟩] [⟨1, "hello"⟩] ⟨true, true, false, false⟩ = []
        ∧ FontAnalyzer.compare [{ name := "Arial", size := 10 }]
            [{ name := "Arial", size := 10 }] mediumFontConfig = []
        ∧ ImageComparator.compare (fun data => toString data.length)
            [⟨[1, 2, 3]⟩] [⟨[1, 2, 3]⟩] = []) :=
  ⟨by norm_num [mediumFontConfig],
    identical_documents_no_differences [⟨1, "hello"⟩] [{ name := "Arial", size := 10 }]
      [⟨[1, 2, 3]⟩] ⟨true, true, false, false⟩ mediumFontConfig
      (fun data => toString data.length) (by norm_num [mediumFontConfig])⟩


theorem compare_page_text_ABC (p : Nat) :
    compare_page_text "A\nB\nC" "A\nX\nC" p = [changedMsg p 1 "B" "X"] := by
  rw [compare_page_text]
  rw [show splitlines "A\nB\nC" = ["A", "B", "C"] from by decide]
  rw [show splitlines "A\nX\nC" = ["A", "X", "C"] from by decide]
  rw [show getOpcodes ["A", "B", "C"] ["A", "X", "C"] =
    [⟨DiffTag.equal, 0, 1, 0, 1⟩, ⟨DiffTag.replace, 1, 2, 1, 2⟩,
     ⟨DiffTag.equal, 2, 3, 2, 3⟩] from by decide]
  simp [opcodeRecords, List.range']

theorem changedMsg_line2 (p : Nat) :
    changedMsg p 1 "B" "X" =
      "On page " ++ toString p ++
        ", line 2, the text was changed from \"B\" to \"X\"." := by
  rw [changedMsg]
  simp only [String.append_assoc]
  congr 1

/-- C5: for reference page text `A\nB\nC` and new page text `A\nX\nC`
sharing page number `p`, the text comparator emits exactly one record —
a replace record for line 2 reporting `B` changed to `X` — and nothing
for lines 1 and 3. -/
theorem text_comparator_single_replace (p : Nat) (cfg : TextConfig) :
    TextComparator.compare [⟨p, "A\nB\nC"⟩] [⟨p, "A\nX\nC"⟩] cfg
      = ["On page " ++ toString p ++
          ", line 2, the text was changed from \"B\" to \"X\"."] := by
  rw [TextComparator.compare]
  have hd : (([⟨p, "A\nB\nC"⟩] : List PdfPage).map PdfPage.page_num
      ++ ([⟨p, "A\nX\nC"⟩] : List PdfPage).map PdfPage.page_num).dedup = [p] := by
    simp
  rw [hd]
  rw [show sortNats [p] = [p] from rfl]
  simp only [List.flatMap_cons, List.flatMap_nil, List.append_nil]
  have h1 : textMapGet [⟨p, "A\nB\nC"⟩] p = some "A\nB\nC" := by
    simp [textMapGet]
  have h2 : textMapGet [⟨p, "A\nX\nC"⟩] p = some "A\nX\nC" := by
    simp [textMapGet]
  rw [h1, h2]
  dsimp only
  rw [compare_page_text_ABC, changedMsg_line2]

/-- C1 (amended): recording the same comparison data twice on a fresh
store yields a pattern whose `count` is 1 — the counter starts at 0 on
first sight and is only incremented on later recordings — with
`first_seen` from the first recording and `last_seen` from the second
(`first_seen ≤ last_seen`), and both examples retained. -/
theorem update_patterns_twice (cd : ComparisonData) (t1 t2 : ℚ) (h : t1 ≤ t2) :
    ∃ p : PatternData,
      alistGet (update_patterns (update_patterns emptyLearningState cd t1) cd t2).patterns
          (extract_pattern_key cd) = some p
        ∧ p.count = 1 ∧ p.first_seen = t1 ∧ p.last_seen = t2
        ∧ p.first_seen ≤ p.last_seen
        ∧ p.examples = [⟨t1, cd⟩, ⟨t2, cd⟩] := by
  refine ⟨⟨1, t1, t2, [⟨t1, cd⟩, ⟨t2, cd⟩], cd⟩, ?_, rfl, rfl, rfl, h, rfl⟩
  simp [update_patterns, emptyLearningState, alistGet, alistSet, List.find?]

/-- Witness for C1's amended statement at `t1 = 0`, `t2 = 1` on the
trivial comparison data. -/
theorem update_patterns_twice_witness :
    (0 : ℚ) ≤ 1 ∧
      ∃ p : PatternData,
        alistGet (update_patterns (update_patterns emptyLearningState ⟨none⟩ 0) ⟨none⟩ 1).patterns
            (extract_pattern_key ⟨none⟩) = some p
          ∧ p.count = 1 ∧ p.first_seen = 0 ∧ p.last_seen = 1
          ∧ p.first_seen ≤ p.last_seen
          ∧ p.examples = [⟨0, ⟨none⟩⟩, ⟨1, ⟨none⟩⟩] :=
  ⟨by norm_num, update_patterns_twice ⟨none⟩ 0 1 (by norm_num)⟩

/-- Counterexample to C1 as stated: recording the same comparison data
twice on a fresh store leaves `count = 1`, not 2 (`update_patterns`
initializes `count` to 0 in the new-pattern branch and only increments
in the existing-pattern branch). -/
theorem update_patterns_count_not_two :
    ∃ p : PatternData,
      alistGet (update_patterns (update_patterns emptyLearningState ⟨none⟩ 0) ⟨none⟩ 1).patterns
          (extract_pattern_key ⟨none⟩) = some p
        ∧ p.count = 1 ∧ p.count ≠ 2 := by
  refine ⟨⟨1, 0, 1, [⟨0, ⟨none⟩⟩, ⟨1, ⟨none⟩⟩], ⟨none⟩⟩, ?_, rfl, by decide⟩
  simp [update_patterns, emptyLearningState, alistGet, alistSet, List.find?]

/-- C2: steps run in declaration order (`_topological_sort` returns the
step list unchanged), and a step whose declared dependency is not yet a
key of the completed-results map aborts the whole workflow with the
dependency-not-met failure — for every binding of that step's task and
every list of following steps, so the step's task never runs and no
later step executes. -/
theorem workflow_dependency_not_met {α : Type}
    (tasks : String → Option (List (String × α) → Except String (List (String × α))))
    (context : List (String × α)) (pre : List WorkflowStep) (s : WorkflowStep)
    (post : List WorkflowStep) (r : List (String × List (String × α))) (d : String)
    (hpre : executeSteps tasks context pre [] = Except.ok r)
    (hd : d ∈ s.dependencies) (hnot : d ∉ r.map Prod.fst) :
    topological_sort (pre ++ s :: post) = pre ++ s :: post
      ∧ Workflow.execute tasks context (pre ++ s :: post)
          = Except.error ("Dependencies not met for step: " ++ s.name) := by
  refine ⟨rfl, ?_⟩
  rw [Workflow.execute, topological_sort, executeSteps_append, hpre]
  have hchk : check_dependencies s r = false := by
    rw [check_dependencies]
    simp only [List.all_eq_false]
    exact ⟨d, hd, by simpa using hnot⟩
  simp [executeSteps, hchk]

/-- Witness for C2: the spec's own example — step B declaring a
dependency on step A with A declared after B — aborts with the
dependency-not-met failure even though every task is bound. -/
theorem workflow_dependency_not_met_witness :
    topological_sort [⟨"B", "task_b", ["A"]⟩, ⟨"A", "task_a", []⟩]
        = [⟨"B", "task_b", ["A"]⟩, ⟨"A", "task_a", []⟩]
      ∧ Workflow.execute
          (fun _ => some (fun _ => Except.ok ([] : List (String × Unit))))
          [] [⟨"B", "task_b", ["A"]⟩, ⟨"A", "task_a", []⟩]
          = Except.error "Dependencies not met for step: B" :=
  workflow_dependency_not_met
    (fun _ => some (fun _ => Except.ok ([] : List (String × Unit))))
    [] [] ⟨"B", "task_b", ["A"]⟩ [⟨"A", "task_a", []⟩] [] "A"
    rfl (by simp) (by simp)

/-- One `update_statistics(metric, value)` call, with `now` standing for
the `time.time()` of that call. -/
structure StatCall where
  metric : String
  value : ℚ
  now : ℚ

/-- A sequence of `update_statistics` calls applied to a fresh module. -/
def runStats (calls : List StatCall) : LearningState :=
  calls.foldl (fun st c => update_statistics st c.metric c.value c.now)
    emptyLearningState

/-- The entries appended for metric `m` by a call sequence, in call
order. -/
def appliedEntries (m : String) (calls : List StatCall) : List StatEntry :=
  (calls.filter (fun c => c.metric == m)).map (fun c => ⟨c.value, c.now⟩)

theorem update_statistics_unfold (st : LearningState) (metric : String)
    (value now : ℚ) :
    (update_statistics st metric value now).statistics
      = alistSet st.statistics metric
          (if (((alistGet st.statistics metric).getD [])
                ++ [(⟨value, now⟩ : StatEntry)]).length > 1000
           then lastN 1000 (((alistGet st.statistics metric).getD [])
                ++ [(⟨value, now⟩ : StatEntry)])
           else ((alistGet st.statistics metric).getD [])
                ++ [(⟨value, now⟩ : StatEntry)]) := rfl

/-- C10: after any sequence of `update_statistics` calls on a fresh
module, each metric stores exactly the last 1000 entries appended for
it (absent when never updated), so the list never exceeds 1000 elements
and the discarded entries are the oldest ones. -/
theorem update_statistics_bound (calls : List StatCall) (m : String) :
    (alistGet (runStats calls).statistics m =
      if appliedEntries m calls = [] then none
      else some (lastN 1000 (appliedEntries m calls)))
    ∧ (lastN 1000 (appliedEntries m calls)).length ≤ 1000 := by
  refine ⟨?_, by rw [length_lastN]; omega⟩
  induction calls using List.reverseRecOn with
  | nil => simp [runStats, emptyLearningState, appliedEntries, alistGet]
  | append_singleton l c ih =>
    have hrun : runStats (l ++ [c])
        = update_statistics (runStats l) c.metric c.value c.now := by
      rw [runStats, List.foldl_append]
      rfl
    rw [hrun, update_statistics_unfold]
    by_cases hcm : c.metric == m
    · have hm : c.metric = m := by simpa using hcm
      subst hm
      have happ : appliedEntries c.metric (l ++ [c])
          = appliedEntries c.metric l ++ [(⟨c.value, c.now⟩ : StatEntry)] := by
        simp [appliedEntries, List.filter_append]
      rw [alistGet_alistSet_self, ih, happ]
      by_cases hnil : appliedEntries c.metric l = []
      · rw [if_pos hnil, hnil, Option.getD_none, List.nil_append]
        have h1 : ¬(([(⟨c.value, c.now⟩ : StatEntry)] : List StatEntry).length > 1000) := by
          rw [List.length_singleton]
          omega
        have h2 : ([(⟨c.value, c.now⟩ : StatEntry)] : List StatEntry) ≠ [] := by
          simp
        rw [if_neg h1, if_neg h2,
          lastN_of_le (by rw [List.length_singleton]; omega)]
      · rw [if_neg hnil, Option.getD_some]
        have h2 : appliedEntries c.metric l ++ [(⟨c.value, c.now⟩ : StatEntry)] ≠ [] := by
          simp
        rw [if_neg h2]
        refine congrArg some ?_
        by_cases hlen : (appliedEntries c.metric l).length < 1000
        · rw [lastN_of_le (show (appliedEntries c.metric l).length ≤ 1000 by omega)]
          have hc : ¬((appliedEntries c.metric l
              ++ [(⟨c.value, c.now⟩ : StatEntry)]).length > 1000) := by
            rw [List.length_append, List.length_singleton]
            omega
          rw [if_neg hc]
          exact (lastN_of_le (by rw [List.length_append, List.length_singleton]; omega)).symm
        · have hc : (lastN 1000 (appliedEntries c.metric l)
              ++ [(⟨c.value, c.now⟩ : StatEntry)]).length > 1000 := by
            rw [List.length_append, length_lastN, List.length_singleton]
            omega
          rw [if_pos hc]
          exact lastN_append_singleton 1000 (by omega) _ _
    · have hm : m ≠ c.metric := fun h => by simp [h] at hcm
      rw [alistGet_alistSet_ne _ _ _ _ hm, ih]
      have happ : appliedEntries m (l ++ [c]) = appliedEntries m l := by
        simp [appliedEntries, List.filter_append, hcm]
      rw [happ]

/-- The cutoff computed by `clear_old_data`:
`time.time() - days_to_keep * 24 * 3600`. -/
def retentionCutoff (now : ℚ) (days_to_keep : Nat) : ℚ :=
  now - (days_to_keep : ℚ) * 24 * 3600

/-- The example-trimming step of `clear_old_data` for one pattern. -/
def trimmedExamples (p : PatternData) (cutoff : ℚ) : List PatternExample :=
  p.examples.filter (fun ex => ex.timestamp > cutoff)

/-- C8 (amended): the retention trim removes exactly the statistics
entries whose timestamp is at or before the cutoff (not only strictly
older ones — the source keeps `timestamp > cutoff`), drops metrics left
empty, removes a pattern iff its trimmed example list is empty and its
`last_seen` is strictly older than the cutoff, and in particular keeps
a pattern with no remaining examples whose `last_seen` is at or after
the cutoff. -/
theorem clear_old_data_spec (st : LearningState) (now : ℚ) (days_to_keep : Nat) :
    ((clear_old_data st now days_to_keep).statistics
        = (st.statistics.map (fun p =>
            (p.1, p.2.filter (fun v => v.timestamp > retentionCutoff now days_to_keep)))).filter
            (fun p => !p.2.isEmpty))
    ∧ ((clear_old_data st now days_to_keep).patterns
        = (st.patterns.map (fun p =>
            (p.1, { p.2 with examples := trimmedExamples p.2 (retentionCutoff now days_to_keep) }))).filter
            (fun p => !(p.2.examples.isEmpty
              && decide (p.2.last_seen < retentionCutoff now days_to_keep))))
    ∧ (∀ (k : String) (p : PatternData), (k, p) ∈ st.patterns →
        trimmedExamples p (retentionCutoff now days_to_keep) = [] →
        retentionCutoff now days_to_keep ≤ p.last_seen →
        (k, { p with examples := ([] : List PatternExample) })
          ∈ (clear_old_data st now days_to_keep).patterns) := by
  refine ⟨rfl, rfl, ?_⟩
  intro k p hmem hex hseen
  have hmap : (k, { p with examples := ([] : List PatternExample) })
      ∈ st.patterns.map (fun q =>
        (q.1, { q.2 with examples := trimmedExamples q.2 (retentionCutoff now days_to_keep) })) := by
    refine List.mem_map.mpr ⟨(k, p), hmem, ?_⟩
    simp [hex]
  have hnl : ¬ (p.last_seen < retentionCutoff now days_to_keep) :=
    not_lt.mpr hseen
  have hres : (clear_old_data st now days_to_keep).patterns
      = (st.patterns.map (fun q =>
          (q.1, { q.2 with examples := trimmedExamples q.2 (retentionCutoff now days_to_keep) }))).filter
          (fun q => !(q.2.examples.isEmpty
            && decide (q.2.last_seen < retentionCutoff now days_to_keep))) := rfl
  rw [hres]
  exact List.mem_filter.mpr ⟨hmap, by simp [hnl]⟩

/-- Witness for C8's kept-pattern clause: a pattern with no examples at
all but `last_seen = 5` at a cutoff of 0 survives the trim. -/
theorem clear_old_data_spec_witness :
    ("k", (⟨3, 0, 5, [], ⟨none⟩⟩ : PatternData))
      ∈ (clear_old_data ⟨[("k", ⟨3, 0, 5, [], ⟨none⟩⟩)], [], []⟩ 2592000 30).patterns := by
  have h := (clear_old_data_spec ⟨[("k", ⟨3, 0, 5, [], ⟨none⟩⟩)], [], []⟩ 2592000 30).2.2
    "k" ⟨3, 0, 5, [], ⟨none⟩⟩ (by simp) rfl (by norm_num [retentionCutoff])
  simpa using h

/-- Counterexample to C8 as stated: an entry whose timestamp equals the
cutoff is not strictly older than it, yet `clear_old_data` removes it
(the source keeps only `timestamp > cutoff`), here emptying and
deleting the metric. -/
theorem clear_old_data_removes_boundary_entry :
    ¬ ((0 : ℚ) < 2592000 - (30 : ℚ) * 24 * 3600)
      ∧ (clear_old_data ⟨[], [("m", [⟨7, 0⟩])], []⟩ 2592000 30).statistics = [] := by
  constructor
  · norm_num
  · norm_num [clear_old_data]

/-- Recognizer for `size` records of `compare_fonts_detailed`. -/
def isSizeRecord : FontDiff → Bool
  | FontDiff.size _ _ _ _ _ => true
  | _ => false

theorem filter_isSizeRecord_map_eq_nil (l : List String) (f : String → FontDiff)
    (hf : ∀ s, isSizeRecord (f s) = false) :
    (l.map f).filter isSizeRecord = [] := by
  induction l with
  | nil => rfl
  | cons x t ih => simp [List.filter_cons, hf, ih]

theorem filter_isSizeRecord_flatMap_eq_nil (l : List String)
    (g : String → List FontDiff) (hg : ∀ s, (g s).filter isSizeRecord = []) :
    (l.flatMap g).filter isSizeRecord = [] := by
  induction l with
  | nil => rfl
  | cons x t ih =>
    rw [List.flatMap_cons, List.filter_append, hg, ih]
    rfl

theorem compare_fonts_size_single (f1 f2 : Font) (config : FontConfig)
    (h : f1.name = f2.name) :
    (compare_fonts_detailed [f1] [f2] config).filter isSizeRecord
      = if |f1.size - f2.size| > config.size_tolerance then
          [FontDiff.size f1.name f1.size f2.size (|f1.size - f2.size|)
            (if |f1.size - f2.size| ≤ 1 then "minor" else "medium")]
        else [] := by
  rw [show |f1.size - f2.size| = ratAbs (f1.size - f2.size) from
    (ratAbs_eq_abs _).symm]
  have hget1 : fontGet [f1] f1.name = some f1 := by simp [fontGet]
  have hget2 : fontGet [f2] f1.name = some f2 := by simp [fontGet, h]
  have hkeys : fontKeys [f1] = [f1.name] := by
    simp [fontKeys]
  rw [compare_fonts_detailed, List.filter_append, List.filter_append,
    List.filter_append]
  have hfam : ((if config.family_check then
      ((familySet [f2]).filter (fun fam => !((familySet [f1]).contains fam))).map
        (fun fam => FontDiff.added_family fam "medium")
      ++ ((familySet [f1]).filter (fun fam => !((familySet [f2]).contains fam))).map
        (fun fam => FontDiff.removed_family fam "medium")
    else []).filter isSizeRecord) = [] := by
    cases config.family_check
    · rfl
    · rw [if_pos rfl, List.filter_append,
        filter_isSizeRecord_map_eq_nil
          ((familySet [f2]).filter (fun fam => !((familySet [f1]).contains fam)))
          (fun fam => FontDiff.added_family fam "medium") (fun s => rfl),
        filter_isSizeRecord_map_eq_nil
          ((familySet [f1]).filter (fun fam => !((familySet [f2]).contains fam)))
          (fun fam => FontDiff.removed_family fam "medium") (fun s => rfl)]
      rfl
  have hstyle : ((if config.style_check then
      (fontKeys [f1]).flatMap (fun n =>
        match fontGet [f1] n, fontGet [f2] n with
        | some g1, some g2 =>
          if g1.style.getD "" ≠ g2.style.getD "" then
            [FontDiff.style n (g1.style.getD "") (g2.style.getD "") "medium"]
          else []
        | _, _ => [])
    else []).filter isSizeRecord) = [] := by
    cases config.style_check
    · rfl
    · rw [if_pos rfl]
      apply filter_isSizeRecord_flatMap_eq_nil
      intro s
      cases fontGet [f1] s with
      | none => rfl
      | some g1 =>
        cases fontGet [f2] s with
        | none => rfl
        | some g2 =>
          by_cases hst : g1.style.getD "" ≠ g2.style.getD ""
          · simp [hst, List.filter_cons, isSizeRecord]
          · simp [hst]
  have hcolor : ((if config.color_check then
      (fontKeys [f1]).flatMap (fun n =>
        match fontGet [f1] n, fontGet [f2] n with
        | some g1, some g2 =>
          if g1.color.getD "" ≠ g2.color.getD "" then
            [FontDiff.color n (g1.color.getD "") (g2.color.getD "") "minor"]
          else []
        | _, _ => [])
    else []).filter isSizeRecord) = [] := by
    cases config.color_check
    · rfl
    · rw [if_pos rfl]
      apply filter_isSizeRecord_flatMap_eq_nil
      intro s
      cases fontGet [f1] s with
      | none => rfl
      | some g1 =>
        cases fontGet [f2] s with
        | none => rfl
        | some g2 =>
          by_cases hc : g1.color.getD "" ≠ g2.color.getD ""
          · simp [hc, List.filter_cons, isSizeRecord]
          · simp [hc]
  rw [hfam, hstyle, hcolor, hkeys, List.flatMap_cons, List.flatMap_nil,
    List.append_nil, hget1, hget2]
  dsimp only
  by_cases hsz : ratAbs (f1.size - f2.size) > config.size_tolerance
  · simp [hsz, List.filter_cons, isSizeRecord]
  · simp [hsz]

theorem compare_fonts_plain_single (f1 f2 : Font) (config : FontConfig)
    (h : f1.name = f2.name)
    (hfam1 : f1.family = none) (hfam2 : f2.family = none)
    (hsty1 : f1.style = none) (hsty2 : f2.style = none)
    (hcol1 : f1.color = none) (hcol2 : f2.color = none) :
    compare_fonts_detailed [f1] [f2] config
      = if ratAbs (f1.size - f2.size) > config.size_tolerance then
          [FontDiff.size f1.name f1.size f2.size (ratAbs (f1.size - f2.size))
            (if ratAbs (f1.size - f2.size) <= 1 then "minor" else "medium")]
        else [] := by
  have hget1 : fontGet [f1] f1.name = some f1 := by simp [fontGet]
  have hget2 : fontGet [f2] f1.name = some f2 := by simp [fontGet, h]
  have hkeys : fontKeys [f1] = [f1.name] := by
    simp [fontKeys]
  have hfs1 : familySet [f1] = [""] := by
    simp [familySet, hfam1]
  have hfs2 : familySet [f2] = [""] := by
    simp [familySet, hfam2]
  rw [compare_fonts_detailed, hfs1, hfs2, hkeys]
  simp only [List.flatMap_cons, List.flatMap_nil, List.append_nil, hget1, hget2]
  rcases config with ⟨tol, sc, fc, cc⟩
  cases sc <;> cases fc <;> cases cc <;>
    simp [hsty1, hsty2, hcol1, hcol2]

/-- C3: for a pair of same-named font entries on both sides, the font
comparator emits a size record iff the absolute size difference exceeds
the profile's `size_tolerance`, with severity `minor` when the
difference is at most 1.0pt and `medium` beyond that, independent of
the tolerance; concretely, Arial 10pt vs Arial 10.4pt yields no record
under tolerance 0.5 (medium preset) and exactly one size record with
difference 0.4 under tolerance 0.1 (high preset). -/
theorem font_size_record_spec :
    (∀ (f1 f2 : Font) (config : FontConfig), f1.name = f2.name →
      (compare_fonts_detailed [f1] [f2] config).filter isSizeRecord
        = if |f1.size - f2.size| > config.size_tolerance then
            [FontDiff.size f1.name f1.size f2.size (|f1.size - f2.size|)
              (if |f1.size - f2.size| ≤ 1 then "minor" else "medium")]
          else [])
    ∧ compare_fonts_detailed [{ name := "Arial", size := 10 }]
        [{ name := "Arial", size := 52/5 }] mediumFontConfig = []
    ∧ compare_fonts_detailed [{ name := "Arial", size := 10 }]
        [{ name := "Arial", size := 52/5 }] highFontConfig
      = [FontDiff.size "Arial" 10 (52/5) (2/5) "minor"] := by
  refine ⟨compare_fonts_size_single, ?_, ?_⟩
  · rw [compare_fonts_plain_single { name := "Arial", size := 10 }
      { name := "Arial", size := 52/5 } mediumFontConfig rfl rfl rfl rfl rfl rfl rfl]
    rw [if_neg (by norm_num [ratAbs, mediumFontConfig])]
  · rw [compare_fonts_plain_single { name := "Arial", size := 10 }
      { name := "Arial", size := 52/5 } highFontConfig rfl rfl rfl rfl rfl rfl rfl]
    have habs : ratAbs ((10 : ℚ) - 52/5) = 2/5 := by norm_num [ratAbs]
    rw [habs, if_pos (by norm_num [highFontConfig]), if_pos (by norm_num)]

/-- Witness for C3's general clause: fonts `F` at 3pt and 5pt under the
low preset (tolerance 1.0) give one size record at `medium` severity. -/
theorem font_size_record_spec_witness :
    (compare_fonts_detailed [{ name := "F", size := 3 }]
        [{ name := "F", size := 5 }] lowFontConfig).filter isSizeRecord
      = [FontDiff.size "F" 3 5 2 "medium"] := by
  have h := font_size_record_spec.1 { name := "F", size := 3 }
    { name := "F", size := 5 } lowFontConfig rfl
  have habs : |(3 : ℚ) - 5| = 2 := by norm_num
  rw [h, habs]
  norm_num [lowFontConfig]
